import Mathlib

/-!
Verification of the core simulation loop of the "aurora chase" game
(`src/app/page.tsx`): a leader actor ("Aks") steered by keyboard input, a
follower actor ("Olive") chasing a delayed point of the leader's trail,
collectible stars, and throttled session metrics.  The JavaScript numbers are
modelled as real numbers; `Math.hypot` becomes `Real.sqrt (x^2 + y^2)`;
`Math.random()` becomes an explicit oracle `rnd : ℕ → ℝ` whose values are
assumed to lie in `[0, 1)` where the source relies on that.
-/

namespace Aurora

open Classical

/-- 2D vector, mirroring the source type `Vec2` with fields `x` and `y`. -/
structure Vec2 where
  x : ℝ
  y : ℝ

/-- Constant `SPEED = 280`. -/
def SPEED : ℝ := 280

/-- Constant `FOLLOW_DELAY = 34`. -/
def FOLLOW_DELAY : ℕ := 34

/-- Constant `TRAIL_LIMIT = 180`. -/
def TRAIL_LIMIT : ℕ := 180

/-- Constant `EDGE_PADDING = 80`. -/
def EDGE_PADDING : ℝ := 80

/-- Constant `UI_INTERVAL = 120`. -/
def UI_INTERVAL : ℝ := 120

/-- Source `const clamp = (value, min, max) => Math.min(Math.max(value, min), max)`. -/
noncomputable def clamp (value lo hi : ℝ) : ℝ := min (max value lo) hi

/-- Source `const length = (\x7bx, y\x7d) => Math.hypot(x, y)`. -/
noncomputable def vlength (v : Vec2) : ℝ := Real.sqrt (v.x ^ 2 + v.y ^ 2)

/-- Source `normalize`: divide the vector by its length, or return the zero
vector when the length is zero (JS falsy check `if (!len)`). -/
noncomputable def normalize (v : Vec2) : Vec2 :=
  let len := vlength v
  if len = 0 then ⟨0, 0⟩ else ⟨v.x / len, v.y / len⟩

/-- Source `interpolate`: componentwise
`from + (to - from) * factor`. -/
noncomputable def interpolate (a b : Vec2) (factor : ℝ) : Vec2 :=
  ⟨a.x + (b.x - a.x) * factor, a.y + (b.y - a.y) * factor⟩

/-- The eight recognized direction keys (arrow keys and WASD). -/
inductive Key where
  | arrowup | w | arrowdown | s | arrowleft | a | arrowright | d
  deriving DecidableEq

/-- Map `KEY_DIRECTIONS`: the unit direction each recognized key maps to. -/
def KEY_DIRECTIONS : Key → Vec2
  | .arrowup => ⟨0, -1⟩
  | .w => ⟨0, -1⟩
  | .arrowdown => ⟨0, 1⟩
  | .s => ⟨0, 1⟩
  | .arrowleft => ⟨-1, 0⟩
  | .a => ⟨-1, 0⟩
  | .arrowright => ⟨1, 0⟩
  | .d => ⟨1, 0⟩

/-- The input-vector accumulation loop of `step`: starting from `{x:0,y:0}`,
add the direction of every currently pressed key. -/
def sumInput (pressed : List Key) : Vec2 :=
  pressed.foldl (fun v k => ⟨v.x + (KEY_DIRECTIONS k).x, v.y + (KEY_DIRECTIONS k).y⟩) ⟨0, 0⟩

/-- One trail update of `step`: `trail.push({...aks})` followed by
`if (trail.length > TRAIL_LIMIT) trail.shift()`. -/
def trailPush (t : List Vec2) (p : Vec2) : List Vec2 :=
  let t2 := t.concat p
  if t2.length > TRAIL_LIMIT then t2.tail else t2

/-- The follower target index of `step`:
`Math.max(0, trail.length - 1 - FOLLOW_DELAY)`. -/
def followIndex (trailLength : ℕ) : ℤ :=
  max 0 ((trailLength : ℤ) - 1 - (FOLLOW_DELAY : ℤ))

/-- The follower target point of `step`: `trail[targetIndex] ?? aks`. -/
def followTargetOf (trail : List Vec2) (aks : Vec2) : Vec2 :=
  (trail.get? (followIndex trail.length).toNat).getD aks

/-- Record `Collectible`: id, position, taken flag and spin angle, as in
the source type. -/
structure Collectible where
  id : ℕ
  position : Vec2
  taken : Bool
  spin : ℝ

/-- One iteration of the collectible `forEach` loop of `step`, threading the
collected counter: skip taken collectibles entirely; otherwise take the
collectible (and bump the counter) when its distance to the leader is below
30, then advance its spin by `delta * 1.6`. -/
noncomputable def processCollectible (aks : Vec2) (delta : ℝ)
    (p : List Collectible × ℕ) (c : Collectible) : List Collectible × ℕ :=
  if c.taken then (p.1.concat c, p.2)
  else
    let distanceToAks := vlength ⟨c.position.x - aks.x, c.position.y - aks.y⟩
    let c' : Collectible :=
      { c with
        taken := if distanceToAks < 30 then true else c.taken
        spin := c.spin + delta * 1.6 }
    (p.1.concat c', if distanceToAks < 30 then p.2 + 1 else p.2)

/-- The whole collectible `forEach` loop of `step`. -/
noncomputable def processCollectibles (aks : Vec2) (delta : ℝ)
    (cs : List Collectible) (collected : ℕ) : List Collectible × ℕ :=
  cs.foldl (processCollectible aks delta) ([], collected)

/-- Source `generateCollectibles(width, height)`: a batch of 6 fresh collectibles at
uniform-random positions inside the rectangle inset by
`margin = EDGE_PADDING + 30`, with random initial spin.  `Math.random()` is
modelled by the oracle `rnd`, consuming three samples per collectible. -/
noncomputable def generateCollectibles (width height : ℝ) (rnd : ℕ → ℝ) :
    List Collectible :=
  let margin : ℝ := EDGE_PADDING + 30
  (List.range 6).map fun index =>
    { id := index
      position :=
        ⟨margin + rnd (3 * index) * (width - margin * 2),
         margin + rnd (3 * index + 1) * (height - margin * 2)⟩
      taken := false
      spin := rnd (3 * index + 2) * (2 * Real.pi) }

/-- Record `UiState`: time, collected, distance and pace, the metrics
snapshot published to the render layer. -/
structure UiState where
  time : ℝ
  collected : ℕ
  distance : ℝ
  pace : ℝ

/-- Source `updateUiState(distance)`: throttled publication of metrics.  Takes the
wall-clock `now = performance.now()` and the previous `lastUiUpdate`; when
less than `UI_INTERVAL` has elapsed it publishes nothing, otherwise it
records `now` and publishes fresh metrics, with
`pace: collected === 0 ? 0 : time / collected`.  Returns the new
`lastUiUpdate` and the (possibly unchanged) published state. -/
noncomputable def updateUi (now lastUiUpdate : ℝ) (time : ℝ) (collected : ℕ)
    (distance : ℝ) (ui : UiState) : ℝ × UiState :=
  if now - lastUiUpdate < UI_INTERVAL then (lastUiUpdate, ui)
  else
    (now,
     { time := time
       collected := collected
       distance := distance
       pace := if collected = 0 then 0 else time / (collected : ℝ) })

/-- The pace metric published by `updateUiState`. -/
noncomputable def paceValue (time : ℝ) (collected : ℕ) : ℝ :=
  if collected = 0 then 0 else time / (collected : ℝ)

/-- The "Avg Pace" cell of the metrics display in `Game`:
`uiState.pace === 0 ? "--" : ...` — `none` models the "--" placeholder. -/
noncomputable def paceDisplay (pace : ℝ) : Option ℝ :=
  if pace = 0 then none else some pace

/-- The mutable simulation state held in the refs of `useGame`. -/
structure GameState where
  aks : Vec2
  olive : Vec2
  aksDirection : Vec2
  oliveDirection : Vec2
  pressedKeys : List Key
  trail : List Vec2
  collectibles : List Collectible
  collected : ℕ
  time : ℝ
  lastTimestamp : Option ℝ
  lastUiUpdate : ℝ
  uiState : UiState

/-- Source `initializePositions()` (also run by the resize observer after `setup()`):
proportional actor placement, single-point trail, fresh collectible batch,
zeroed counters, cleared last timestamp. -/
noncomputable def initializePositions (width height : ℝ) (rnd : ℕ → ℝ)
    (st : GameState) : GameState :=
  { st with
    aks := ⟨width * 0.65, height * 0.55⟩
    olive := ⟨width * 0.5, height * 0.6⟩
    trail := [⟨width * 0.5, height * 0.6⟩]
    collectibles := generateCollectibles width height rnd
    collected := 0
    time := 0
    lastTimestamp := none }

/-- One frame `step(timestamp)` of the simulation (rendering omitted).
`now` is the `performance.now()` reading inside `updateUiState`; `rnd` is the
`Math.random` oracle used if a fresh batch is generated this frame. -/
noncomputable def step (width height : ℝ) (rnd : ℕ → ℝ) (now : ℝ)
    (timestamp : ℝ) (st : GameState) : GameState :=
  let last := st.lastTimestamp.getD timestamp
  let delta := (timestamp - last) / 1000
  let inputVector := sumInput st.pressedKeys
  let normalizedInput := normalize inputVector
  let aks' :=
    if normalizedInput.x ≠ 0 ∨ normalizedInput.y ≠ 0 then
      (⟨clamp (st.aks.x + normalizedInput.x * SPEED * delta) EDGE_PADDING
          (width - EDGE_PADDING),
        clamp (st.aks.y + normalizedInput.y * SPEED * delta) EDGE_PADDING
          (height - EDGE_PADDING)⟩ : Vec2)
    else st.aks
  let aksDirection' :=
    if normalizedInput.x ≠ 0 ∨ normalizedInput.y ≠ 0 then normalizedInput
    else st.aksDirection
  let trail' := trailPush st.trail aks'
  let followTarget := followTargetOf trail' aks'
  let followVector : Vec2 := ⟨followTarget.x - st.olive.x, followTarget.y - st.olive.y⟩
  let followDistance := vlength followVector
  let stepFactor := min 1 (delta * 6)
  let nextOlive := interpolate st.olive followTarget stepFactor
  let olive' : Vec2 :=
    ⟨clamp nextOlive.x EDGE_PADDING (width - EDGE_PADDING),
     clamp nextOlive.y EDGE_PADDING (height - EDGE_PADDING)⟩
  let oliveDirection' :=
    if followDistance > 1 then normalize followVector else st.oliveDirection
  let processed := processCollectibles aks' delta st.collectibles st.collected
  let collectibles' :=
    if processed.1.all (·.taken) then generateCollectibles width height rnd
    else processed.1
  let time' := st.time + delta
  let pairDistance := vlength ⟨aks'.x - olive'.x, aks'.y - olive'.y⟩
  let ui' := updateUi now st.lastUiUpdate time' processed.2 pairDistance st.uiState
  { st with
    aks := aks'
    olive := olive'
    aksDirection := aksDirection'
    oliveDirection := oliveDirection'
    trail := trail'
    collectibles := collectibles'
    collected := processed.2
    time := time'
    lastTimestamp := some timestamp
    lastUiUpdate := ui'.1
    uiState := ui'.2 }

/-- The initial values of the mutable refs in `useGame`, before
`initializePositions` runs. -/
noncomputable def initialRefs : GameState :=
  { aks := ⟨0, 0⟩
    olive := ⟨0, 0⟩
    aksDirection := ⟨1, 0⟩
    oliveDirection := ⟨1, 0⟩
    pressedKeys := []
    trail := []
    collectibles := []
    collected := 0
    time := 0
    lastTimestamp := none
    lastUiUpdate := 0
    uiState := ⟨0, 0, 0, 0⟩ }

/-- Membership of a point in the clamped play area
`[EDGE_PADDING, width - EDGE_PADDING] × [EDGE_PADDING, height - EDGE_PADDING]`. -/
def inPlayArea (width height : ℝ) (p : Vec2) : Prop :=
  EDGE_PADDING ≤ p.x ∧ p.x ≤ width - EDGE_PADDING ∧
  EDGE_PADDING ≤ p.y ∧ p.y ≤ height - EDGE_PADDING

/-- Membership of a point in the collectible-spawn rectangle, inset by
`margin = EDGE_PADDING + 30` on every side. -/
def inInset (width height : ℝ) (p : Vec2) : Prop :=
  EDGE_PADDING + 30 ≤ p.x ∧ p.x ≤ width - (EDGE_PADDING + 30) ∧
  EDGE_PADDING + 30 ≤ p.y ∧ p.y ≤ height - (EDGE_PADDING + 30)

/-! ## Basic lemmas about the vector operations -/

@[simp] lemma vlength_zero : vlength ⟨0, 0⟩ = 0 := by
  simp [vlength]

lemma vlength_nonneg (v : Vec2) : 0 ≤ vlength v := Real.sqrt_nonneg _

lemma vlength_eq_zero_iff (v : Vec2) : vlength v = 0 ↔ v = ⟨0, 0⟩ := by
  constructor
  · intro h
    have hle : v.x ^ 2 + v.y ^ 2 ≤ 0 := Real.sqrt_eq_zero'.mp h
    have hx : v.x = 0 := by nlinarith [sq_nonneg v.x, sq_nonneg v.y]
    have hy : v.y = 0 := by nlinarith [sq_nonneg v.x, sq_nonneg v.y]
    cases v
    simp_all
  · intro h; subst h; simp

@[simp] lemma normalize_zero : normalize ⟨0, 0⟩ = ⟨0, 0⟩ := by
  simp [normalize]

lemma normalize_eq_self_div (v : Vec2) (h : v ≠ ⟨0, 0⟩) :
    normalize v = ⟨v.x / vlength v, v.y / vlength v⟩ := by
  have hlen : vlength v ≠ 0 := fun hc => h ((vlength_eq_zero_iff v).mp hc)
  simp [normalize, hlen]

lemma vlength_normalize (v : Vec2) (h : v ≠ ⟨0, 0⟩) :
    vlength (normalize v) = 1 := by
  have hlen0 : vlength v ≠ 0 := fun hc => h ((vlength_eq_zero_iff v).mp hc)
  have hlenpos : 0 < vlength v := lt_of_le_of_ne (vlength_nonneg v) (Ne.symm hlen0)
  rw [normalize_eq_self_div v h]
  have hsq : vlength v ^ 2 = v.x ^ 2 + v.y ^ 2 := Real.sq_sqrt (by positivity)
  show Real.sqrt ((v.x / vlength v) ^ 2 + (v.y / vlength v) ^ 2) = 1
  have hkey : (v.x / vlength v) ^ 2 + (v.y / vlength v) ^ 2 = 1 := by
    field_simp
    linarith [hsq]
  rw [hkey, Real.sqrt_one]

lemma normalize_eq_zero_iff (v : Vec2) : normalize v = ⟨0, 0⟩ ↔ v = ⟨0, 0⟩ := by
  constructor
  · intro h
    by_contra hv
    have h1 := vlength_normalize v hv
    rw [h] at h1
    simp at h1
  · intro h; subst h; simp

/-! ## Unfolding lemmas for `step` -/

lemma step_aks (width height : ℝ) (rnd : ℕ → ℝ) (now timestamp : ℝ)
    (st : GameState) :
    (step width height rnd now timestamp st).aks =
      (if (normalize (sumInput st.pressedKeys)).x ≠ 0 ∨
          (normalize (sumInput st.pressedKeys)).y ≠ 0 then
        (⟨clamp (st.aks.x + (normalize (sumInput st.pressedKeys)).x * SPEED *
              ((timestamp - st.lastTimestamp.getD timestamp) / 1000))
            EDGE_PADDING (width - EDGE_PADDING),
          clamp (st.aks.y + (normalize (sumInput st.pressedKeys)).y * SPEED *
              ((timestamp - st.lastTimestamp.getD timestamp) / 1000))
            EDGE_PADDING (height - EDGE_PADDING)⟩ : Vec2)
       else st.aks) := by
  simp only [step]

lemma step_aksDirection (width height : ℝ) (rnd : ℕ → ℝ) (now timestamp : ℝ)
    (st : GameState) :
    (step width height rnd now timestamp st).aksDirection =
      (if (normalize (sumInput st.pressedKeys)).x ≠ 0 ∨
          (normalize (sumInput st.pressedKeys)).y ≠ 0 then
        normalize (sumInput st.pressedKeys)
       else st.aksDirection) := by
  simp only [step]

lemma step_trail (width height : ℝ) (rnd : ℕ → ℝ) (now timestamp : ℝ)
    (st : GameState) :
    (step width height rnd now timestamp st).trail =
      trailPush st.trail (step width height rnd now timestamp st).aks := by
  simp only [step]

lemma step_pressedKeys (width height : ℝ) (rnd : ℕ → ℝ) (now timestamp : ℝ)
    (st : GameState) :
    (step width height rnd now timestamp st).pressedKeys = st.pressedKeys := by
  simp only [step]

/-- With zero summed input the leader's position and facing are untouched by
`step` (the `if (normalizedInput.x || normalizedInput.y)` branch is skipped,
clamp included). -/
lemma step_aks_of_no_input (width height : ℝ) (rnd : ℕ → ℝ)
    (now timestamp : ℝ) (st : GameState)
    (h : sumInput st.pressedKeys = ⟨0, 0⟩) :
    (step width height rnd now timestamp st).aks = st.aks ∧
    (step width height rnd now timestamp st).aksDirection = st.aksDirection := by
  rw [step_aks, step_aksDirection]
  simp [h]

/-! ## Trail lemmas -/

lemma trailPush_of_lt (t : List Vec2) (p : Vec2) (h : t.length < TRAIL_LIMIT) :
    trailPush t p = t ++ [p] := by
  have hc : ¬ (t.concat p).length > TRAIL_LIMIT := by
    simp only [List.length_concat]; omega
  simp only [trailPush]
  rw [if_neg hc, List.concat_eq_append]

lemma trailPush_of_ge (t : List Vec2) (p : Vec2) (h : TRAIL_LIMIT ≤ t.length) :
    trailPush t p = (t ++ [p]).tail := by
  have hc : (t.concat p).length > TRAIL_LIMIT := by
    simp only [List.length_concat]; omega
  simp only [trailPush]
  rw [if_pos hc, List.concat_eq_append]

lemma trailPush_length_le (t : List Vec2) (p : Vec2) (h : t.length ≤ TRAIL_LIMIT) :
    (trailPush t p).length ≤ TRAIL_LIMIT := by
  rcases Nat.lt_or_ge t.length TRAIL_LIMIT with hlt | hge
  · rw [trailPush_of_lt t p hlt]; simp; omega
  · rw [trailPush_of_ge t p hge]
    simp only [List.length_tail, List.length_append, List.length_singleton]
    omega

/-- Folding trail pushes over a frame sequence keeps exactly the suffix that
fits under the cap. -/
lemma trailFold_eq_drop (ps : List Vec2) :
    ∀ t : List Vec2, t.length ≤ TRAIL_LIMIT →
      List.foldl trailPush t ps =
        (t ++ ps).drop (t.length + ps.length - TRAIL_LIMIT) := by
  induction ps with
  | nil =>
    intro t ht
    simp only [List.foldl_nil, List.append_nil, List.length_nil, Nat.add_zero,
      Nat.sub_eq_zero_of_le ht, List.drop_zero]
  | cons p ps ih =>
    intro t ht
    rw [List.foldl_cons]
    rcases Nat.lt_or_ge t.length TRAIL_LIMIT with hlt | hge
    · rw [trailPush_of_lt t p hlt,
        ih (t ++ [p]) (by
          simp only [List.length_append, List.length_cons, List.length_nil]; omega)]
      have hidx : (t ++ [p]).length + ps.length - TRAIL_LIMIT =
          t.length + (p :: ps).length - TRAIL_LIMIT := by
        simp only [List.length_append, List.length_cons, List.length_nil]
        omega
      rw [hidx, List.append_assoc, List.singleton_append]
    · have heq : t.length = TRAIL_LIMIT := le_antisymm ht hge
      obtain ⟨a, t', rfl⟩ : ∃ a t', t = a :: t' := by
        cases t with
        | nil => simp [TRAIL_LIMIT] at heq
        | cons a t' => exact ⟨a, t', rfl⟩
      rw [trailPush_of_ge _ p hge]
      simp only [List.cons_append, List.tail_cons]
      have hlen' : (t' ++ [p]).length ≤ TRAIL_LIMIT := by
        simp only [List.length_append, List.length_cons, List.length_nil]
        simp only [List.length_cons] at heq
        omega
      rw [ih (t' ++ [p]) hlen']
      have hidx : (t' ++ [p]).length + ps.length - TRAIL_LIMIT = ps.length := by
        simp only [List.length_append, List.length_cons, List.length_nil]
        simp only [List.length_cons] at heq
        omega
      have htgt : (a :: t').length + (p :: ps).length - TRAIL_LIMIT =
          ps.length + 1 := by
        simp only [List.length_cons]
        simp only [List.length_cons] at heq
        omega
      rw [hidx, htgt, List.append_assoc, List.singleton_append,
        List.drop_succ_cons]

lemma trailFold_length_le (ps : List Vec2) :
    ∀ t : List Vec2, t.length ≤ TRAIL_LIMIT →
      (List.foldl trailPush t ps).length ≤ TRAIL_LIMIT := by
  induction ps with
  | nil => intro t ht; simpa using ht
  | cons p ps ih =>
    intro t ht
    rw [List.foldl_cons]
    exact ih _ (trailPush_length_le t p ht)

/-! ## Collectible lemmas -/

/-- The frame delta computed at the top of `step`:
`(timestamp - (lastTimestamp ?? timestamp)) / 1000` seconds. -/
noncomputable def stepDelta (timestamp : ℝ) (st : GameState) : ℝ :=
  (timestamp - st.lastTimestamp.getD timestamp) / 1000

lemma step_collected (width height : ℝ) (rnd : ℕ → ℝ) (now timestamp : ℝ)
    (st : GameState) :
    (step width height rnd now timestamp st).collected =
      (processCollectibles (step width height rnd now timestamp st).aks
        (stepDelta timestamp st) st.collectibles st.collected).2 := by
  simp only [step, stepDelta]

lemma step_collectibles (width height : ℝ) (rnd : ℕ → ℝ) (now timestamp : ℝ)
    (st : GameState) :
    (step width height rnd now timestamp st).collectibles =
      (if (processCollectibles (step width height rnd now timestamp st).aks
            (stepDelta timestamp st) st.collectibles st.collected).1.all
            (·.taken) then
        generateCollectibles width height rnd
       else
        (processCollectibles (step width height rnd now timestamp st).aks
          (stepDelta timestamp st) st.collectibles st.collected).1) := by
  simp only [step, stepDelta]

lemma generateCollectibles_length (width height : ℝ) (rnd : ℕ → ℝ) :
    (generateCollectibles width height rnd).length = 6 := by
  simp [generateCollectibles]

lemma generateCollectibles_mem (width height : ℝ) (rnd : ℕ → ℝ)
    (hrnd : ∀ k, 0 ≤ rnd k ∧ rnd k < 1)
    (hw : 2 * (EDGE_PADDING + 30) ≤ width)
    (hh : 2 * (EDGE_PADDING + 30) ≤ height) :
    ∀ c ∈ generateCollectibles width height rnd,
      c.taken = false ∧ inInset width height c.position := by
  intro c hc
  simp only [generateCollectibles, List.mem_map, List.mem_range] at hc
  obtain ⟨i, _, rfl⟩ := hc
  have hx0 := (hrnd (3 * i)).1
  have hx1 := (hrnd (3 * i)).2
  have hy0 := (hrnd (3 * i + 1)).1
  have hy1 := (hrnd (3 * i + 1)).2
  have hwpos : (0 : ℝ) ≤ width - (EDGE_PADDING + 30) * 2 := by
    simp only [EDGE_PADDING] at hw ⊢; linarith
  have hhpos : (0 : ℝ) ≤ height - (EDGE_PADDING + 30) * 2 := by
    simp only [EDGE_PADDING] at hh ⊢; linarith
  refine ⟨rfl, ?_, ?_, ?_, ?_⟩
  · have := mul_nonneg hx0 hwpos
    simp only [EDGE_PADDING] at this ⊢
    linarith
  · have := mul_le_of_le_one_left hwpos (le_of_lt hx1)
    simp only [EDGE_PADDING] at this ⊢
    linarith
  · have := mul_nonneg hy0 hhpos
    simp only [EDGE_PADDING] at this ⊢
    linarith
  · have := mul_le_of_le_one_left hhpos (le_of_lt hy1)
    simp only [EDGE_PADDING] at this ⊢
    linarith

/-! ## Metrics-throttle lemmas -/

/-- Folding the `updateUiState` throttle over the `performance.now()`
readings of a frame sequence: the state is the pair of the current
`lastUiUpdate` and the number of publications so far; a frame publishes
exactly when at least `UI_INTERVAL` has passed since the last publication,
and then records its own wall-clock time. -/
noncomputable def uiRun (p : ℝ × ℕ) (times : List ℝ) : ℝ × ℕ :=
  times.foldl
    (fun q now => if now - q.1 < UI_INTERVAL then q else (now, q.2 + 1)) p

lemma uiRun_cons (p : ℝ × ℕ) (t : ℝ) (rest : List ℝ) :
    uiRun p (t :: rest) =
      uiRun (if t - p.1 < UI_INTERVAL then p else (t, p.2 + 1)) rest := by
  simp [uiRun]

lemma uiRun_inv (a B : ℝ) (times : List ℝ)
    (hmem : ∀ x ∈ times, a ≤ x ∧ x ≤ B) :
    ∀ (l : ℝ) (c c0 : ℕ), c0 ≤ c →
      (c0 < c → a + UI_INTERVAL * ((c - c0 - 1 : ℕ) : ℝ) ≤ l ∧ l ≤ B) →
      c0 ≤ (uiRun (l, c) times).2 ∧
      (c0 < (uiRun (l, c) times).2 →
        a + UI_INTERVAL * (((uiRun (l, c) times).2 - c0 - 1 : ℕ) : ℝ) ≤
          (uiRun (l, c) times).1 ∧ (uiRun (l, c) times).1 ≤ B) := by
  induction times with
  | nil =>
    intro l c c0 hc hinv
    exact ⟨hc, hinv⟩
  | cons t rest ih =>
    intro l c c0 hc hinv
    have hmem' : ∀ x ∈ rest, a ≤ x ∧ x ≤ B := fun x hx =>
      hmem x (List.mem_cons_of_mem _ hx)
    have ht := hmem t (List.mem_cons_self _ _)
    rw [uiRun_cons]
    by_cases hthr : t - l < UI_INTERVAL
    · rw [if_pos hthr]
      exact ih hmem' l c c0 hc hinv
    · rw [if_neg hthr]
      refine ih hmem' t (c + 1) c0 (le_trans hc (Nat.le_succ c)) ?_
      intro _
      refine ⟨?_, ht.2⟩
      rcases Nat.eq_or_lt_of_le hc with heq | hlt
      · have h0 : (c + 1 - c0 - 1 : ℕ) = 0 := by omega
        rw [h0]
        simpa using ht.1
      · have hl := hinv hlt
        have hstep : UI_INTERVAL ≤ t - l := le_of_not_lt hthr
        have hcast : ((c + 1 - c0 - 1 : ℕ) : ℝ) = ((c - c0 - 1 : ℕ) : ℝ) + 1 := by
          have : (c + 1 - c0 - 1 : ℕ) = (c - c0 - 1) + 1 := by omega
          rw [this]
          push_cast
          ring
        rw [hcast]
        have : a + UI_INTERVAL * ((c - c0 - 1 : ℕ) : ℝ) + UI_INTERVAL ≤ t := by
          linarith [hl.1]
        linarith [this]

/-- At most `⌈window / UI_INTERVAL⌉` publications in any wall-clock window:
with all `performance.now()` readings inside a window of length 500 ms, the
throttle lets at most 5 publications through. -/
lemma uiRun_count_le (a B l0 : ℝ) (c0 : ℕ) (times : List ℝ)
    (hmem : ∀ x ∈ times, a ≤ x ∧ x ≤ B) (hwin : B ≤ a + 500) :
    (uiRun (l0, c0) times).2 ≤ c0 + 5 := by
  have h := uiRun_inv a B times hmem l0 c0 c0 le_rfl (by intro hlt; omega)
  rcases Nat.eq_or_lt_of_le h.1 with heq | hlt
  · omega
  · have hb := h.2 hlt
    by_contra hgt
    push_neg at hgt
    have hk : 5 ≤ ((uiRun (l0, c0) times).2 - c0 - 1 : ℕ) := by omega
    have hk' : (5 : ℝ) ≤ (((uiRun (l0, c0) times).2 - c0 - 1 : ℕ) : ℝ) := by
      exact_mod_cast hk
    have : a + UI_INTERVAL * 5 ≤ (uiRun (l0, c0) times).1 := by
      have hUI : (0 : ℝ) < UI_INTERVAL := by norm_num [UI_INTERVAL]
      nlinarith [hb.1]
    have hUI : UI_INTERVAL = (120 : ℝ) := rfl
    linarith [hb.2, this]

/-! ## Claim C1 -/

/-- C1 counterexample: one idle frame after initialisation on a 200×200 play
area.  The trail holds 2 (< 35) samples, yet the follower's target point is
the oldest trail sample — the follower's own starting point (100, 120) —
and not the leader's current position (130, 110). -/
theorem C1_counterexample :
    ((step 200 200 (fun _ => 0) 0 0
        (initializePositions 200 200 (fun _ => 0) initialRefs)).trail.length < 35) ∧
    followTargetOf
        (step 200 200 (fun _ => 0) 0 0
          (initializePositions 200 200 (fun _ => 0) initialRefs)).trail
        (step 200 200 (fun _ => 0) 0 0
          (initializePositions 200 200 (fun _ => 0) initialRefs)).aks ≠
      (step 200 200 (fun _ => 0) 0 0
        (initializePositions 200 200 (fun _ => 0) initialRefs)).aks := by
  set st0 := initializePositions 200 200 (fun _ => 0) initialRefs with hst0
  have hkeys : sumInput st0.pressedKeys = ⟨0, 0⟩ := rfl
  have haks := (step_aks_of_no_input 200 200 (fun _ => 0) 0 0 st0 hkeys).1
  have hst0aks : st0.aks = ⟨130, 110⟩ := by
    simp only [hst0, initializePositions]
    norm_num
  have hst0trail : st0.trail = [⟨100, 120⟩] := by
    simp only [hst0, initializePositions]
    norm_num
  have htrail : (step 200 200 (fun _ => 0) 0 0 st0).trail =
      [⟨100, 120⟩, ⟨130, 110⟩] := by
    rw [step_trail, haks, hst0aks, hst0trail, trailPush_of_lt]
    · rfl
    · simp [TRAIL_LIMIT]
  refine ⟨by rw [htrail]; norm_num, ?_⟩
  rw [htrail, haks, hst0aks]
  have hidx : (followIndex 2).toNat = 0 := by decide
  have htgt : followTargetOf [⟨100, 120⟩, ⟨130, 110⟩] ⟨130, 110⟩ =
      ⟨100, 120⟩ := by
    simp [followTargetOf, hidx]
  rw [htgt]
  simp only [ne_eq, Vec2.mk.injEq, not_and]
  intro hcontra
  norm_num at hcontra

/-- C1 (amended): the follower's target index is
`max(0, trailLength − 1 − 34)`; when the trail holds fewer than 35 samples
that index is 0, so the target point is the OLDEST trail sample
(`trail.headD aks`); the leader's current position is only the fallback used
for an empty trail. -/
theorem C1_follow_target (trail : List Vec2) (aks : Vec2) :
    (followIndex trail.length = max 0 ((trail.length : ℤ) - 1 - 34)) ∧
    (trail.length < 35 → followTargetOf trail aks = trail.headD aks) ∧
    followTargetOf [] aks = aks := by
  refine ⟨rfl, ?_, rfl⟩
  intro hlen
  have hidx : followIndex trail.length = 0 := by
    simp only [followIndex, FOLLOW_DELAY]
    omega
  cases trail with
  | nil => rfl
  | cons p rest =>
    simp only [List.length_cons] at hidx
    simp [followTargetOf, hidx]

/-- Witness for C1 at a concrete two-sample trail. -/
theorem C1_follow_target_witness :
    followTargetOf [⟨100, 120⟩, ⟨130, 110⟩] ⟨130, 110⟩ = ⟨100, 120⟩ := by
  have h := (C1_follow_target [⟨100, 120⟩, ⟨130, 110⟩] ⟨130, 110⟩).2.1
    (by norm_num)
  simpa using h

/-! ## Claim C2 -/

/-- C2 counterexample: at elapsedTime 10 s and collectedCount 0, a publishing
frame (wall-clock gap 200 ms ≥ 120 ms) publishes pace = 0 — the "undefined"
sentinel IS the number zero, refuting the claim that it is not. -/
theorem C2_counterexample :
    (updateUi 200 0 10 0 5 ⟨0, 0, 0, 0⟩).2.pace = 0 := by
  simp only [updateUi]
  rw [if_neg (by norm_num [UI_INTERVAL])]
  simp

/-- C2 (amended): the published pace is the number 0 when `collectedCount`
is 0 — the render layer distinguishes "no pace yet" precisely by comparing
the published value with 0 and showing the `--` placeholder — and equals
`elapsedTime / collectedCount` whenever `collectedCount > 0`. -/
theorem C2_pace (now lastUi time distance : ℝ) (collected : ℕ) (ui : UiState)
    (hpub : ¬ now - lastUi < UI_INTERVAL) :
    ((updateUi now lastUi time collected distance ui).2.pace =
      paceValue time collected) ∧
    (collected = 0 → paceValue time collected = 0 ∧
      paceDisplay (paceValue time collected) = none) ∧
    (0 < collected → paceValue time collected = time / (collected : ℝ)) := by
  refine ⟨?_, ?_, ?_⟩
  · simp only [updateUi, paceValue]
    rw [if_neg hpub]
  · intro h
    subst h
    simp [paceValue, paceDisplay]
  · intro h
    have hne : collected ≠ 0 := Nat.pos_iff_ne_zero.mp h
    simp [paceValue, hne]

/-- Witness for C2: elapsedTime 10 s, collectedCount 2 → published pace 5. -/
theorem C2_pace_witness :
    (updateUi 200 0 10 2 5 ⟨0, 0, 0, 0⟩).2.pace = 5 := by
  have h := C2_pace 200 0 10 5 2 ⟨0, 0, 0, 0⟩ (by norm_num [UI_INTERVAL])
  rw [h.1, h.2.2 (by norm_num)]
  norm_num

/-! ## Claim C4 -/

/-- C4: the per-frame input vector is the normalized sum of the pressed
keys' unit directions: the zero vector exactly when the summed directions
cancel — in particular with no key pressed, or with left and right held
together — and of length exactly 1 whenever the sum is nonzero (no diagonal
speed boost). -/
theorem C4_input (pressed : List Key) :
    (sumInput pressed = ⟨0, 0⟩ → normalize (sumInput pressed) = ⟨0, 0⟩) ∧
    (sumInput pressed ≠ ⟨0, 0⟩ → vlength (normalize (sumInput pressed)) = 1) ∧
    normalize (sumInput []) = ⟨0, 0⟩ ∧
    normalize (sumInput [Key.arrowleft, Key.arrowright]) = ⟨0, 0⟩ := by
  refine ⟨?_, ?_, ?_, ?_⟩
  · intro h
    rw [h]
    simp
  · exact vlength_normalize _
  · simp [sumInput]
  · have h : sumInput [Key.arrowleft, Key.arrowright] = ⟨0, 0⟩ := by
      simp only [sumInput, List.foldl_cons, List.foldl_nil, KEY_DIRECTIONS]
      norm_num
    rw [h]
    simp

/-- Witness for C4: up (via `w`) and right (via `d`) held together give a
unit-length input vector. -/
theorem C4_input_witness :
    vlength (normalize (sumInput [Key.w, Key.d])) = 1 := by
  refine (C4_input [Key.w, Key.d]).2.1 ?_
  simp only [sumInput, List.foldl_cons, List.foldl_nil, KEY_DIRECTIONS, ne_eq,
    Vec2.mk.injEq, not_and]
  intro hx
  norm_num at hx

/-! ## Claim C5 -/

/-- C5: `step` appends the leader's position to the trail exactly once per
frame, most-recent-last (`trailPush`); folding any frame sequence keeps the
trail length at most 180; and once at least 180 positions have been
appended, exactly the most recent 180 of them remain, in oldest-first
order. -/
theorem C5_trail :
    (∀ (width height : ℝ) (rnd : ℕ → ℝ) (now timestamp : ℝ) (st : GameState),
      (step width height rnd now timestamp st).trail =
        trailPush st.trail (step width height rnd now timestamp st).aks) ∧
    (∀ t ps : List Vec2, t.length ≤ TRAIL_LIMIT →
      (List.foldl trailPush t ps).length ≤ TRAIL_LIMIT) ∧
    (∀ t ps : List Vec2, t.length ≤ TRAIL_LIMIT → TRAIL_LIMIT ≤ ps.length →
      List.foldl trailPush t ps = ps.drop (ps.length - TRAIL_LIMIT)) := by
  refine ⟨step_trail, ?_, ?_⟩
  · intro t ps ht
    exact trailFold_length_le ps t ht
  · intro t ps ht hps
    rw [trailFold_eq_drop ps t ht]
    have hidx : t.length + ps.length - TRAIL_LIMIT =
        t.length + (ps.length - TRAIL_LIMIT) := by omega
    rw [hidx, List.drop_append]

/-- Witness for C5: 200 appended positions over an initially empty trail
leave exactly the most recent 180. -/
theorem C5_trail_witness :
    List.foldl trailPush [] (List.replicate 200 (⟨1, 2⟩ : Vec2)) =
      List.replicate 180 (⟨1, 2⟩ : Vec2) := by
  have h := C5_trail.2.2 [] (List.replicate 200 ⟨1, 2⟩)
    (by norm_num [TRAIL_LIMIT])
    (by rw [List.length_replicate]; norm_num [TRAIL_LIMIT])
  rw [h, List.length_replicate, List.drop_replicate]
  norm_num [TRAIL_LIMIT]

/-! ## Claim C3 -/

/-- C3 counterexample: on a 100×100 play area the initial proportional
placement puts the leader at (65, 55), outside
`[80, 100−80] × [80, 100−80]`; an idle frame (zero input, Δt = 0) leaves it
there, so the claimed bound fails for that frame. -/
theorem C3_counterexample :
    ¬ inPlayArea 100 100
      (step 100 100 (fun _ => 0) 0 0
        (initializePositions 100 100 (fun _ => 0) initialRefs)).aks := by
  set st0 := initializePositions 100 100 (fun _ => 0) initialRefs with hst0
  have hkeys : sumInput st0.pressedKeys = ⟨0, 0⟩ := rfl
  have haks := (step_aks_of_no_input 100 100 (fun _ => 0) 0 0 st0 hkeys).1
  rw [haks]
  have hpos : st0.aks = ⟨65, 55⟩ := by
    simp only [hst0, initializePositions]
    norm_num
  rw [hpos]
  intro hin
  have h1 := hin.1
  norm_num [EDGE_PADDING] at h1

/-- C3 (amended): on a nondegenerate play area
(`2·EDGE_PADDING ≤ width, height`), the leader's position after `step` lies
inside `[EDGE_PADDING, width − EDGE_PADDING] × [EDGE_PADDING,
height − EDGE_PADDING]` whenever the frame's input vector is nonzero (the
clamp is applied), and from any in-bounds position the leader stays in
bounds for every input and every Δt (with zero input the position is left
unchanged). -/
theorem C3_leader_bounds (width height : ℝ) (rnd : ℕ → ℝ)
    (now timestamp : ℝ) (st : GameState)
    (hw : 2 * EDGE_PADDING ≤ width) (hh : 2 * EDGE_PADDING ≤ height) :
    (sumInput st.pressedKeys ≠ ⟨0, 0⟩ →
      inPlayArea width height (step width height rnd now timestamp st).aks) ∧
    (inPlayArea width height st.aks →
      inPlayArea width height (step width height rnd now timestamp st).aks) := by
  have hclamp : ∀ v lo hi : ℝ, lo ≤ hi →
      lo ≤ clamp v lo hi ∧ clamp v lo hi ≤ hi := by
    intro v lo hi hle
    exact ⟨le_min (le_max_right v lo) hle, min_le_right _ _⟩
  have hwx : EDGE_PADDING ≤ width - EDGE_PADDING := by
    simp only [EDGE_PADDING] at hw ⊢
    linarith
  have hhy : EDGE_PADDING ≤ height - EDGE_PADDING := by
    simp only [EDGE_PADDING] at hh ⊢
    linarith
  rw [step_aks]
  by_cases hcond : (normalize (sumInput st.pressedKeys)).x ≠ 0 ∨
      (normalize (sumInput st.pressedKeys)).y ≠ 0
  · rw [if_pos hcond]
    have hbounds : inPlayArea width height
        (⟨clamp (st.aks.x + (normalize (sumInput st.pressedKeys)).x * SPEED *
              ((timestamp - st.lastTimestamp.getD timestamp) / 1000))
            EDGE_PADDING (width - EDGE_PADDING),
          clamp (st.aks.y + (normalize (sumInput st.pressedKeys)).y * SPEED *
              ((timestamp - st.lastTimestamp.getD timestamp) / 1000))
            EDGE_PADDING (height - EDGE_PADDING)⟩ : Vec2) := by
      refine ⟨(hclamp _ _ _ hwx).1, (hclamp _ _ _ hwx).2,
        (hclamp _ _ _ hhy).1, (hclamp _ _ _ hhy).2⟩
    exact ⟨fun _ => hbounds, fun _ => hbounds⟩
  · rw [if_neg hcond]
    constructor
    · intro hne
      exfalso
      apply hne
      rw [← normalize_eq_zero_iff]
      push_neg at hcond
      cases hcfg : normalize (sumInput st.pressedKeys) with
      | mk vx vy =>
        rw [hcfg] at hcond
        simp only at hcond
        simp [Vec2.mk.injEq, hcond.1, hcond.2]
    · intro hin
      exact hin

/-- Witness for C3 on a 400×400 play area with the right-arrow direction
held: the clamped leader position is in bounds. -/
theorem C3_leader_bounds_witness :
    inPlayArea 400 400
      (step 400 400 (fun _ => 0) 0 0
        { initialRefs with aks := ⟨200, 200⟩, pressedKeys := [Key.d] }).aks := by
  refine (C3_leader_bounds 400 400 (fun _ => 0) 0 0
    { initialRefs with aks := ⟨200, 200⟩, pressedKeys := [Key.d] }
    (by norm_num [EDGE_PADDING]) (by norm_num [EDGE_PADDING])).1 ?_
  show sumInput [Key.d] ≠ ⟨0, 0⟩
  simp only [sumInput, List.foldl_cons, List.foldl_nil, KEY_DIRECTIONS, ne_eq,
    Vec2.mk.injEq, not_and]
  intro hx
  norm_num at hx

/-! ## Claim C6 -/

/-- C6: the per-collectible check of `step`'s pickup loop: a not-yet-taken
collectible strictly closer than 30 units to the leader becomes taken and
bumps the collected counter by exactly 1 (its spin still advances); at
distance ≥ 30 the taken flag and the counter are left untouched by that
collectible's check (only its spin advances). -/
theorem C6_pickup (aks : Vec2) (delta : ℝ) (acc : List Collectible × ℕ)
    (c : Collectible) (hnt : c.taken = false) :
    (vlength ⟨c.position.x - aks.x, c.position.y - aks.y⟩ < 30 →
      processCollectible aks delta acc c =
        (acc.1.concat { c with taken := true, spin := c.spin + delta * 1.6 },
         acc.2 + 1)) ∧
    (¬ vlength ⟨c.position.x - aks.x, c.position.y - aks.y⟩ < 30 →
      processCollectible aks delta acc c =
        (acc.1.concat { c with spin := c.spin + delta * 1.6 }, acc.2)) := by
  constructor
  · intro hd
    simp only [processCollectible, hnt]
    simp [hd]
  · intro hd
    simp only [processCollectible, hnt]
    simp [hd]

/-- Witness for C6: a collectible exactly at the leader's position
(distance 0 < 30) is taken and the counter moves 3 → 4. -/
theorem C6_pickup_witness :
    processCollectible ⟨50, 50⟩ 2 ([], 3) ⟨0, ⟨50, 50⟩, false, 1⟩ =
      ([⟨0, ⟨50, 50⟩, true, 1 + 2 * 1.6⟩], 4) := by
  have h := (C6_pickup ⟨50, 50⟩ 2 ([], 3) ⟨0, ⟨50, 50⟩, false, 1⟩ rfl).1
    (by norm_num [vlength, Real.sqrt_zero])
  simpa using h

/-! ## Claim C7 -/

/-- C7: when a frame's collectible processing ends with every collectible of
the batch taken, `step` installs a completely new batch within that same
frame: 6 fresh not-taken collectibles positioned inside the inset rectangle
(inset = EDGE_PADDING + 30), while the cumulative collected counter remains
exactly the processing result — regeneration never resets it. -/
theorem C7_regen (width height : ℝ) (rnd : ℕ → ℝ) (now timestamp : ℝ)
    (st : GameState)
    (hrnd : ∀ k, 0 ≤ rnd k ∧ rnd k < 1)
    (hw : 2 * (EDGE_PADDING + 30) ≤ width)
    (hh : 2 * (EDGE_PADDING + 30) ≤ height)
    (hall : (processCollectibles (step width height rnd now timestamp st).aks
        (stepDelta timestamp st) st.collectibles st.collected).1.all
        (·.taken) = true) :
    (step width height rnd now timestamp st).collectibles =
      generateCollectibles width height rnd ∧
    (step width height rnd now timestamp st).collectibles.length = 6 ∧
    (∀ c ∈ (step width height rnd now timestamp st).collectibles,
      c.taken = false ∧ inInset width height c.position) ∧
    (step width height rnd now timestamp st).collected =
      (processCollectibles (step width height rnd now timestamp st).aks
        (stepDelta timestamp st) st.collectibles st.collected).2 := by
  have hcoll : (step width height rnd now timestamp st).collectibles =
      generateCollectibles width height rnd := by
    rw [step_collectibles, if_pos hall]
  refine ⟨hcoll, ?_, ?_,
    step_collected width height rnd now timestamp st⟩
  · rw [hcoll]
    exact generateCollectibles_length width height rnd
  · rw [hcoll]
    exact generateCollectibles_mem width height rnd hrnd hw hh

/-- Witness for C7: with an (exhausted) empty batch, the step regenerates a
fresh 6-item batch while keeping the counter. -/
theorem C7_regen_witness :
    (step 400 400 (fun _ => 1/2) 0 0
      { initialRefs with collectibles := [] }).collectibles.length = 6 := by
  exact (C7_regen 400 400 (fun _ => 1/2) 0 0
    { initialRefs with collectibles := [] }
    (by intro k; norm_num)
    (by norm_num [EDGE_PADDING])
    (by norm_num [EDGE_PADDING])
    rfl).2.1

/-! ## Claim C8 -/

/-- C8: a resize notification (which re-runs `initializePositions`) performs
a full state reset at any simulation time: elapsed time 0, collected counter
0, single-point trail (the follower's fresh position), a fresh batch of 6
not-taken collectibles inside the new bounds' inset rectangle, both actors
repositioned proportionally to the new dimensions, and the last-frame
timestamp cleared. -/
theorem C8_reset (width height : ℝ) (rnd : ℕ → ℝ) (st : GameState)
    (hrnd : ∀ k, 0 ≤ rnd k ∧ rnd k < 1)
    (hw : 2 * (EDGE_PADDING + 30) ≤ width)
    (hh : 2 * (EDGE_PADDING + 30) ≤ height) :
    (initializePositions width height rnd st).time = 0 ∧
    (initializePositions width height rnd st).collected = 0 ∧
    (initializePositions width height rnd st).trail =
      [(initializePositions width height rnd st).olive] ∧
    (initializePositions width height rnd st).collectibles =
      generateCollectibles width height rnd ∧
    (initializePositions width height rnd st).collectibles.length = 6 ∧
    (∀ c ∈ (initializePositions width height rnd st).collectibles,
      c.taken = false ∧ inInset width height c.position) ∧
    (initializePositions width height rnd st).aks =
      ⟨width * 0.65, height * 0.55⟩ ∧
    (initializePositions width height rnd st).olive =
      ⟨width * 0.5, height * 0.6⟩ ∧
    (initializePositions width height rnd st).lastTimestamp = none := by
  refine ⟨rfl, rfl, rfl, rfl, ?_, ?_, rfl, rfl, rfl⟩
  · exact generateCollectibles_length width height rnd
  · exact generateCollectibles_mem width height rnd hrnd hw hh

/-- Witness for C8 on a 400×400 play area. -/
theorem C8_reset_witness :
    (initializePositions 400 400 (fun _ => 1/2) initialRefs).collected = 0 ∧
    (initializePositions 400 400 (fun _ => 1/2)
      initialRefs).collectibles.length = 6 ∧
    (initializePositions 400 400 (fun _ => 1/2) initialRefs).lastTimestamp =
      none := by
  have h := C8_reset 400 400 (fun _ => 1/2) initialRefs
    (by intro k; norm_num)
    (by norm_num [EDGE_PADDING])
    (by norm_num [EDGE_PADDING])
  exact ⟨h.2.1, h.2.2.2.2.1, h.2.2.2.2.2.2.2.2⟩

/-! ## Claim C9 -/

/-- C9: metrics publication is throttled on the 120 ms wall clock: a frame
whose `performance.now()` reading is less than 120 ms after the last
publication publishes nothing and leaves `lastUiUpdate` unchanged; the
recorded timestamp evolves exactly by that guard; and consequently any frame
sequence — of any length, so any frame rate — whose wall-clock readings all
lie in a window of at most 500 ms produces at most 5 publications. -/
theorem C9_throttle :
    (∀ (now lastUi time distance : ℝ) (collected : ℕ) (ui : UiState),
      now - lastUi < UI_INTERVAL →
        updateUi now lastUi time collected distance ui = (lastUi, ui)) ∧
    (∀ (now lastUi time distance : ℝ) (collected : ℕ) (ui : UiState),
      (updateUi now lastUi time collected distance ui).1 =
        if now - lastUi < UI_INTERVAL then lastUi else now) ∧
    (∀ (a B l0 : ℝ) (c0 : ℕ) (times : List ℝ),
      (∀ x ∈ times, a ≤ x ∧ x ≤ B) → B ≤ a + 500 →
      (uiRun (l0, c0) times).2 ≤ c0 + 5) := by
  refine ⟨?_, ?_, ?_⟩
  · intro now lastUi time distance collected ui h
    simp [updateUi, h]
  · intro now lastUi time distance collected ui
    by_cases h : now - lastUi < UI_INTERVAL <;> simp [updateUi, h]
  · intro a B l0 c0 times hmem hwin
    exact uiRun_count_le a B l0 c0 times hmem hwin

/-- Witness for C9: three frames inside a 100 ms window publish at most 5
times, and a 50 ms-after-publication frame publishes nothing. -/
theorem C9_throttle_witness :
    (uiRun (0, 0) [0, 50, 100]).2 ≤ 0 + 5 ∧
    updateUi 170 120 1 1 1 ⟨0, 0, 0, 0⟩ = (120, ⟨0, 0, 0, 0⟩) := by
  constructor
  · refine C9_throttle.2.2 0 100 0 0 [0, 50, 100] ?_ (by norm_num)
    intro x hx
    simp only [List.mem_cons, List.not_mem_nil, or_false] at hx
    rcases hx with rfl | rfl | rfl <;> norm_num
  · exact C9_throttle.1 170 120 1 1 1 ⟨0, 0, 0, 0⟩ (by norm_num [UI_INTERVAL])

/-! ## Claim C10 -/

lemma stepFold_aks_of_no_input (width height : ℝ) (rnd : ℕ → ℝ)
    (frames : List (ℝ × ℝ)) :
    ∀ st : GameState, sumInput st.pressedKeys = ⟨0, 0⟩ →
      (frames.foldl (fun s pr => step width height rnd pr.1 pr.2 s) st).aks =
        st.aks := by
  induction frames with
  | nil =>
    intro st _
    rfl
  | cons f fs ih =>
    intro st h
    rw [List.foldl_cons]
    have hkeys :
        sumInput (step width height rnd f.1 f.2 st).pressedKeys = ⟨0, 0⟩ := by
      rw [step_pressedKeys]
      exact h
    rw [ih _ hkeys, (step_aks_of_no_input _ _ _ _ _ _ h).1]

/-- C10: on a zero-input frame `step` leaves the leader's position and
facing exactly unchanged (the movement-and-clamp branch is skipped), and
since `step` never touches the pressed-key set, the position persists over
any number of key-less frames; in particular the proportional initial
placement on a 100×100 play area is (65, 55), which lies outside the
play-area rectangle and therefore stays out of bounds while no key is
held. -/
theorem C10_idle (width height : ℝ) (rnd : ℕ → ℝ) (now timestamp : ℝ)
    (st : GameState) (h : sumInput st.pressedKeys = ⟨0, 0⟩) :
    (step width height rnd now timestamp st).aks = st.aks ∧
    (step width height rnd now timestamp st).aksDirection =
      st.aksDirection ∧
    (∀ frames : List (ℝ × ℝ),
      (frames.foldl (fun s pr => step width height rnd pr.1 pr.2 s) st).aks =
        st.aks) ∧
    (initializePositions 100 100 rnd st).aks = ⟨65, 55⟩ ∧
    ¬ inPlayArea 100 100 (⟨65, 55⟩ : Vec2) := by
  refine ⟨(step_aks_of_no_input _ _ _ _ _ _ h).1,
    (step_aks_of_no_input _ _ _ _ _ _ h).2,
    fun frames => stepFold_aks_of_no_input width height rnd frames st h,
    ?_, ?_⟩
  · simp only [initializePositions]
    norm_num
  · intro hin
    have h1 := hin.1
    norm_num [EDGE_PADDING] at h1

/-- Witness for C10: ten idle frames leave the leader of a freshly
initialised 100×100 session at its out-of-bounds placement (65, 55). -/
theorem C10_idle_witness :
    ((List.replicate 10 ((0 : ℝ), (16 : ℝ))).foldl
      (fun s pr => step 100 100 (fun _ => 0) pr.1 pr.2 s)
      (initializePositions 100 100 (fun _ => 0) initialRefs)).aks =
      (initializePositions 100 100 (fun _ => 0) initialRefs).aks := by
  exact (C10_idle 100 100 (fun _ => 0) 0 16
    (initializePositions 100 100 (fun _ => 0) initialRefs) rfl).2.2.1
    (List.replicate 10 (0, 16))

end Aurora
